import Mathlib

/-!
Shallow embedding of the RPKI-viz backend (src/backend/vrp_loader.py and
src/backend/diff_engine.py): canonicalization, deduplication, snapshot
hashing, diff computation, serial management, state persistence and startup
load.  Python machine-level details are modelled as follows:

* Python `str` values are Lean `String`s; Python string comparison (used by
  `sorted`) is code-point lexicographic, matching `String`'s linear order.
* `ipaddress.ip_network(v, strict=True)` is modelled for IPv4 dotted-quad
  inputs with a numeric prefix length (the shape every record in the claims
  uses); inputs outside that shape are treated as invalid.
* Python `int(...)` string parsing is modelled as an optional minus sign
  followed by decimal digits.
* `sorted(..., key=...)` is a stable sort; it is modelled by stable
  insertion sort over the same key order.
* `hashlib.sha256(...).hexdigest()` is implemented bit-for-bit (FIPS 180-4)
  over `Nat` word arithmetic, and `json.dumps(vrps, sort_keys=True)` is
  reproduced with Python's default separators and sorted keys.
-/

/-- Decimal digit character `n % 10`, as produced by Python `str` of an int. -/
def digitCh (n : Nat) : Char :=
  match n % 10 with
  | 0 => '0' | 1 => '1' | 2 => '2' | 3 => '3' | 4 => '4'
  | 5 => '5' | 6 => '6' | 7 => '7' | 8 => '8' | _ => '9'

/-- Digit characters of `n`, most significant first; `fuel` bounds recursion
so the definition is structural (with `fuel = n + 1` the bound is never hit). -/
def natDecCore : Nat → Nat → List Char
  | 0, _ => []
  | fuel + 1, n =>
    if n < 10 then [digitCh n] else natDecCore fuel (n / 10) ++ [digitCh (n % 10)]

/-- Model of Python `str(n)` for a nonnegative integer. -/
def natDec (n : Nat) : String := String.mk (natDecCore (n + 1) n)

/-- Model of Python `str(m)` for an int. -/
def intDec (m : Int) : String :=
  if m < 0 then "-" ++ natDec (-m).toNat else natDec m.toNat

/-- Split a character list on a separator (model of Python `str.split(sep)`). -/
def splitChar (sep : Char) : List Char → List (List Char)
  | [] => [[]]
  | c :: cs =>
    match splitChar sep cs with
    | [] => [[c]]
    | g :: gs => if c = sep then [] :: g :: gs else (c :: g) :: gs

/-- ASCII decimal digit test. -/
def isDigitCh (c : Char) : Bool := 48 ≤ c.toNat && c.toNat ≤ 57

/-- Value of a decimal digit string (Python `int` on an all-digit string). -/
def digitsVal (cs : List Char) : Nat := cs.foldl (fun a c => a * 10 + (c.toNat - 48)) 0

/-- Model of CPython `ipaddress` IPv4 octet parsing: nonempty, all digits, at
most 3 characters, no leading zero (except "0" itself), value at most 255. -/
def parseOctet (cs : List Char) : Option Nat :=
  if cs = [] then none
  else if ¬ cs.all isDigitCh then none
  else if 3 < cs.length then none
  else if 1 < cs.length ∧ cs.head? = some '0' then none
  else if 255 < digitsVal cs then none
  else some (digitsVal cs)

/-- Model of CPython `ipaddress` prefix-length parsing: nonempty, all digits,
value at most 32 (IPv4). -/
def parsePlen (cs : List Char) : Option Nat :=
  if cs = [] then none
  else if ¬ cs.all isDigitCh then none
  else if 32 < digitsVal cs then none
  else some (digitsVal cs)

/-- Parse a dotted-quad IPv4 address to its 32-bit value. -/
def parseIPv4Addr (cs : List Char) : Option Nat :=
  match (splitChar '.' cs).mapM parseOctet with
  | some [o1, o2, o3, o4] => some (((o1 * 256 + o2) * 256 + o3) * 256 + o4)
  | _ => none

/-- Model of Python `ipaddress.ip_network(s, strict=True)` on IPv4 input:
returns the (address, prefix length) pair, requiring all host bits zero
(strict parse); an address without "/" gets prefix length 32. -/
def ip_network_strict (s : String) : Option (Nat × Nat) :=
  match splitChar '/' s.data with
  | [addr] =>
    match parseIPv4Addr addr with
    | some a => some (a, 32)
    | none => none
  | [addr, pl] =>
    match parseIPv4Addr addr, parsePlen pl with
    | some a, some p => if a % 2 ^ (32 - p) = 0 then some (a, p) else none
    | _, _ => none
  | _ => none

/-- Model of Python `str(network)`: canonical dotted-quad with prefix length. -/
def renderIPv4 : Nat × Nat → String
  | (a, p) =>
    natDec (a / 16777216 % 256) ++ "." ++ natDec (a / 65536 % 256) ++ "." ++
      natDec (a / 256 % 256) ++ "." ++ natDec (a % 256) ++ "/" ++ natDec p

/-- Normalized prefix string `str(ipaddress.ip_network(s, strict=True))`.
Total fallback: an unparseable string is returned unchanged (in the source
this raises, but every caller only reaches it with validated prefixes). -/
def normalizePfx (s : String) : String :=
  match ip_network_strict s with
  | some n => renderIPv4 n
  | none => s

/-- A raw VRP record as consumed from Routinator JSON (class VRPEntry).  The
source field `prefix` is renamed `pfx` because `prefix` is a Lean keyword. -/
structure VRPEntry where
  asn : String
  pfx : String
  maxLength : Int
  ta : String
deriving DecidableEq, Repr

/-- Model of Python `int(cs)`: optional minus sign then decimal digits.
(Python also strips whitespace and accepts "_" separators and "+"; no claim
exercises those inputs.) -/
def parsePyInt (cs : List Char) : Option Int :=
  match cs with
  | '-' :: rest =>
    if rest ≠ [] ∧ rest.all isDigitCh then some (-(digitsVal rest : Int)) else none
  | _ => if cs ≠ [] ∧ cs.all isDigitCh then some ((digitsVal cs : Int)) else none

/-- VRPEntry.validate_asn: must start with "AS" and the remainder must parse
as an integer in [0, 4294967295]. -/
def validate_asn (s : String) : Bool :=
  match s.data with
  | 'A' :: 'S' :: rest =>
    match parsePyInt rest with
    | some v => decide (0 ≤ v ∧ v ≤ 4294967295)
    | none => false
  | _ => false

/-- VRPEntry.validate_prefix (renamed; `prefix` is a Lean keyword): the string
must parse as a strict CIDR network (no host bits set). -/
def validate_pfx (s : String) : Bool := (ip_network_strict s).isSome

/-- VRPEntry.validate_max_length: maxLength must be in [0, 128]. -/
def validate_maxLength (m : Int) : Bool := decide (0 ≤ m ∧ m ≤ 128)

/-- Conjunction of the three Pydantic field validators of VRPEntry. -/
def validEntry (e : VRPEntry) : Bool :=
  validate_asn e.asn && validate_pfx e.pfx && validate_maxLength e.maxLength

/-- VRPEntry.canonicalize: canonical representation used as deduplication key. -/
def VRPEntry.canonicalize (e : VRPEntry) : String :=
  e.asn ++ "|" ++ normalizePfx e.pfx ++ "|" ++ intDec e.maxLength ++ "|" ++ e.ta

/-- A canonical VRP dictionary as stored in canonical_map (asn, normalized
prefix, maxLength, ta). -/
structure CanonVRP where
  asn : String
  pfx : String
  maxLength : Int
  ta : String
deriving DecidableEq, Repr

/-- The dict stored for a VRP in VRPLoader.canonicalize_vrps: fields copied,
prefix normalized. -/
def canonDict (e : VRPEntry) : CanonVRP :=
  { asn := e.asn, pfx := normalizePfx e.pfx, maxLength := e.maxLength, ta := e.ta }

/-- The deduplication key recomputed from a stored canonical dict. -/
def canonKey (v : CanonVRP) : String :=
  v.asn ++ "|" ++ v.pfx ++ "|" ++ intDec v.maxLength ++ "|" ++ v.ta

/-- The to_key projection inside DiffEngine._compute_diff: asn, prefix and
maxLength only (no trust anchor). -/
def to_key (v : CanonVRP) : String := v.asn ++ "|" ++ v.pfx ++ "|" ++ intDec v.maxLength

/-- Code-point lexicographic strict order on character lists: Python's
string comparison. -/
def lexLT : List Char → List Char → Bool
  | [], [] => false
  | [], _ :: _ => true
  | _ :: _, [] => false
  | a :: as, b :: bs =>
    if a.toNat < b.toNat then true
    else if b.toNat < a.toNat then false
    else lexLT as bs

/-- Python string comparison `s < t` (by code points). -/
def strLT (s t : String) : Bool := lexLT s.data t.data

/-- Boolean comparison matching Python tuple order on the sort key
`(x['prefix'], x['asn'], x['maxLength'])`. -/
def sortLEb (a b : CanonVRP) : Bool :=
  if strLT a.pfx b.pfx then true
  else if strLT b.pfx a.pfx then false
  else if strLT a.asn b.asn then true
  else if strLT b.asn a.asn then false
  else decide (a.maxLength ≤ b.maxLength)

/-- The sort order used by canonicalize_vrps, as a relation. -/
def sortRel (a b : CanonVRP) : Prop := sortLEb a b = true

instance : DecidableRel sortRel := fun a b => Bool.decEq (sortLEb a b) true

/-- Loop body of VRPLoader.canonicalize_vrps: insert into canonical_map only
when the canonical key is not yet present (first-seen record wins).  The
Python dict keeps insertion order, modelled by appending. -/
def canonical_fold (acc : List (String × CanonVRP)) (vrp : VRPEntry) : List (String × CanonVRP) :=
  if (acc.lookup (VRPEntry.canonicalize vrp)).isSome then acc
  else acc ++ [(VRPEntry.canonicalize vrp, canonDict vrp)]

/-- The canonical_map of VRPLoader.canonicalize_vrps after the loop. -/
def dedupPairs (vrps : List VRPEntry) : List (String × CanonVRP) :=
  vrps.foldl canonical_fold []

/-- VRPLoader.canonicalize_vrps: deduplicate by canonical key (first seen
wins), then sort deterministically by (prefix, asn, maxLength).  Python's
`sorted` is a stable sort, modelled by stable insertion sort. -/
def canonicalize_vrps (vrps : List VRPEntry) : List CanonVRP :=
  List.insertionSort sortRel ((dedupPairs vrps).map Prod.snd)

/-- JSON string character escaping as json.dumps performs it for the quote
and backslash (control-character escapes are not modelled; no claim
serializes control characters). -/
def jsonEscapeChar (c : Char) : List Char :=
  if c = '"' then ['\\', '"']
  else if c = '\\' then ['\\', '\\']
  else [c]

/-- JSON rendering of a string, with surrounding quotes. -/
def jsonString (s : String) : String :=
  String.mk ('"' :: s.data.foldr (fun c acc => jsonEscapeChar c ++ acc) ['"'])

/-- JSON rendering of one VRP dict by json.dumps(..., sort_keys=True): keys
in sorted order (asn, maxLength, prefix, ta), Python's default separators. -/
def jsonVRP (v : CanonVRP) : String :=
  "\x7b\"asn\": " ++ jsonString v.asn ++ ", \"maxLength\": " ++ intDec v.maxLength ++
    ", \"prefix\": " ++ jsonString v.pfx ++ ", \"ta\": " ++ jsonString v.ta ++ "\x7d"

/-- Join strings with a separator (model of str.join). -/
def joinSep (sep : String) : List String → String
  | [] => ""
  | [s] => s
  | s :: rest => s ++ sep ++ joinSep sep rest

/-- json.dumps(vrps, sort_keys=True) for the snapshot list. -/
def jsonDumps (vrps : List CanonVRP) : String :=
  "[" ++ joinSep ", " (vrps.map jsonVRP) ++ "]"

/-- UTF-8 encoding of one character as byte values. -/
def utf8Char (c : Char) : List Nat :=
  let n := c.toNat
  if n < 128 then [n]
  else if n < 2048 then [192 + n / 64, 128 + n % 64]
  else if n < 65536 then [224 + n / 4096, 128 + n / 64 % 64, 128 + n % 64]
  else [240 + n / 262144, 128 + n / 4096 % 64, 128 + n / 64 % 64, 128 + n % 64]

/-- Python str.encode('utf-8') as a list of byte values. -/
def utf8Bytes (s : String) : List Nat := (s.data.map utf8Char).flatten

/-- Truncation to a 32-bit word. -/
def w32 (n : Nat) : Nat := n % 4294967296

/-- 32-bit right rotation. -/
def rotr32 (n x : Nat) : Nat := w32 ((x >>> n) ||| (x <<< (32 - n)))

/-- SHA-256 round constants (FIPS 180-4). -/
def sha256K : List Nat :=
  [1116352408, 1899447441, 3049323471, 3921009573, 961987163, 1508970993,
   2453635748, 2870763221, 3624381080, 310598401, 607225278, 1426881987,
   1925078388, 2162078206, 2614888103, 3248222580, 3835390401, 4022224774,
   264347078, 604807628, 770255983, 1249150122, 1555081692, 1996064986,
   2554220882, 2821834349, 2952996808, 3210313671, 3336571891, 3584528711,
   113926993, 338241895, 666307205, 773529912, 1294757372, 1396182291,
   1695183700, 1986661051, 2177026350, 2456956037, 2730485921, 2820302411,
   3259730800, 3345764771, 3516065817, 3600352804, 4094571909, 275423344,
   430227734, 506948616, 659060556, 883997877, 958139571, 1322822218,
   1537002063, 1747873779, 1955562222, 2024104815, 2227730452, 2361852424,
   2428436474, 2756734187, 3204031479, 3329325298]

/-- Big-endian 8-byte encoding of a 64-bit length value. -/
def be64 (n : Nat) : List Nat :=
  [n / 72057594037927936 % 256, n / 281474976710656 % 256, n / 1099511627776 % 256,
   n / 4294967296 % 256, n / 16777216 % 256, n / 65536 % 256, n / 256 % 256, n % 256]

/-- SHA-256 message padding: append 0x80, zero bytes to 56 mod 64, then the
bit length as a big-endian 64-bit integer. -/
def sha256Pad (msg : List Nat) : List Nat :=
  msg ++ 0x80 :: List.replicate ((119 - msg.length % 64) % 64) 0 ++ be64 (msg.length * 8)

/-- Split a byte list into 64-byte blocks (fuel-structural). -/
def chunksAux : Nat → List Nat → List (List Nat)
  | 0, _ => []
  | _ + 1, [] => []
  | fuel + 1, l => l.take 64 :: chunksAux fuel (l.drop 64)

/-- Big-endian 4-byte grouping of a byte list into 32-bit words. -/
def toWords : List Nat → List Nat
  | b0 :: b1 :: b2 :: b3 :: rest => (((b0 * 256 + b1) * 256 + b2) * 256 + b3) :: toWords rest
  | _ => []

/-- SHA-256 sigma functions. -/
def smallSigma0 (x : Nat) : Nat := (rotr32 7 x) ^^^ (rotr32 18 x) ^^^ (x >>> 3)

/-- SHA-256 sigma-1. -/
def smallSigma1 (x : Nat) : Nat := (rotr32 17 x) ^^^ (rotr32 19 x) ^^^ (x >>> 10)

/-- SHA-256 Sigma-0. -/
def bigSigma0 (x : Nat) : Nat := (rotr32 2 x) ^^^ (rotr32 13 x) ^^^ (rotr32 22 x)

/-- SHA-256 Sigma-1. -/
def bigSigma1 (x : Nat) : Nat := (rotr32 6 x) ^^^ (rotr32 11 x) ^^^ (rotr32 25 x)

/-- SHA-256 choice function. -/
def chF (x y z : Nat) : Nat := (x &&& y) ^^^ ((x ^^^ 4294967295) &&& z)

/-- SHA-256 majority function. -/
def majF (x y z : Nat) : Nat := (x &&& y) ^^^ (x &&& z) ^^^ (y &&& z)

/-- Message-schedule extension: append `k` more words to the 16 block words. -/
def extendW : Nat → List Nat → List Nat
  | 0, ws => ws
  | k + 1, ws =>
    let i := ws.length
    extendW k (ws ++ [w32 (ws.getD (i - 16) 0 + smallSigma0 (ws.getD (i - 15) 0) +
      ws.getD (i - 7) 0 + smallSigma1 (ws.getD (i - 2) 0))])

/-- SHA-256 working state. -/
structure SHAState where
  a : Nat
  b : Nat
  c : Nat
  d : Nat
  e : Nat
  f : Nat
  g : Nat
  h : Nat

/-- One SHA-256 compression round; `kw` is the (constant, schedule word) pair. -/
def sha256Round (st : SHAState) (kw : Nat × Nat) : SHAState :=
  let t1 := w32 (st.h + bigSigma1 st.e + chF st.e st.f st.g + kw.1 + kw.2)
  let t2 := w32 (bigSigma0 st.a + majF st.a st.b st.c)
  { a := w32 (t1 + t2), b := st.a, c := st.b, d := st.c,
    e := w32 (st.d + t1), f := st.e, g := st.f, h := st.g }

/-- Compress one 64-byte block into the running hash state. -/
def sha256Block (hs : SHAState) (block : List Nat) : SHAState :=
  let st := (sha256K.zip (extendW 48 (toWords block))).foldl sha256Round hs
  { a := w32 (hs.a + st.a), b := w32 (hs.b + st.b), c := w32 (hs.c + st.c),
    d := w32 (hs.d + st.d), e := w32 (hs.e + st.e), f := w32 (hs.f + st.f),
    g := w32 (hs.g + st.g), h := w32 (hs.h + st.h) }

/-- SHA-256 initial hash values. -/
def sha256Init : SHAState :=
  ⟨1779033703, 3144134277, 1013904242, 2773480762, 1359893119, 2600822924, 528734635, 1541459225⟩

/-- Lower-case hexadecimal digit of `n % 16`. -/
def hexDig (n : Nat) : Char :=
  match n % 16 with
  | 0 => '0' | 1 => '1' | 2 => '2' | 3 => '3' | 4 => '4' | 5 => '5' | 6 => '6' | 7 => '7'
  | 8 => '8' | 9 => '9' | 10 => 'a' | 11 => 'b' | 12 => 'c' | 13 => 'd' | 14 => 'e' | _ => 'f'

/-- Eight lower-case hex digits of a 32-bit word, most significant first. -/
def hexWord8 (w : Nat) : List Char :=
  [hexDig (w / 268435456), hexDig (w / 16777216), hexDig (w / 1048576), hexDig (w / 65536),
   hexDig (w / 4096), hexDig (w / 256), hexDig (w / 16), hexDig w]

/-- hashlib.sha256(msg).hexdigest() over a byte list. -/
def sha256hex (msg : List Nat) : String :=
  let fin := (chunksAux (sha256Pad msg).length (sha256Pad msg)).foldl sha256Block sha256Init
  String.mk (hexWord8 fin.a ++ hexWord8 fin.b ++ hexWord8 fin.c ++ hexWord8 fin.d ++
    hexWord8 fin.e ++ hexWord8 fin.f ++ hexWord8 fin.g ++ hexWord8 fin.h)

/-- DiffEngine._compute_hash: SHA-256 hex digest of the sorted-keys JSON
serialization of the snapshot, encoded as UTF-8. -/
def compute_hash (vrps : List CanonVRP) : String := sha256hex (utf8Bytes (jsonDumps vrps))

/-- Upstream metadata dict passed through fetch_and_process. -/
structure UpstreamMeta where
  generated : Int
  fetched_at : String
deriving DecidableEq, Repr

/-- One persisted diff file (diffs/diff_<serial>.json). -/
structure DiffRecord where
  serial : Nat
  timestamp : String
  metadata : UpstreamMeta
  added_count : Nat
  removed_count : Nat
  added : List CanonVRP
  removed : List CanonVRP
deriving DecidableEq, Repr

/-- Persisted state_metadata.json. -/
structure StateMetaFile where
  serial : Nat
  current_hash : String
  last_update : Option String
  vrp_count : Nat
deriving DecidableEq, Repr

/-- Replace the value at a key, or append a new pair: a Python dict update /
an overwriting file write, preserving position order. -/
def putAssoc {α β : Type} [DecidableEq α] [BEq α] (m : List (α × β)) (k : α) (v : β) : List (α × β) :=
  if (m.lookup k).isSome then m.map (fun p => if p.1 = k then (k, v) else p)
  else m ++ [(k, v)]

/-- In-memory DiffEngine state together with its persisted file set
(current_snapshot.json, previous_snapshot.json, state_metadata.json and the
diffs directory keyed by serial, the key in the diff file name). -/
structure EngineState where
  current_snapshot : List CanonVRP
  previous_snapshot : List CanonVRP
  serial : Nat
  current_hash : String
  last_update : Option String
  diffFiles : List (Int × DiffRecord)
  currentFile : Option (List CanonVRP)
  previousFile : Option (List CanonVRP)
  metadataFile : Option StateMetaFile
deriving DecidableEq, Repr

/-- DiffEngine.__init__: empty snapshots, serial 0, empty hash. The file
fields describe the state directory, initially empty here; load_state is
modelled separately over arbitrary directory contents. -/
def DiffEngine.init : EngineState :=
  { current_snapshot := [], previous_snapshot := [], serial := 0, current_hash := "",
    last_update := none, diffFiles := [], currentFile := none, previousFile := none,
    metadataFile := none }

/-- The dict comprehension in _compute_diff: key-to-record map in insertion
order; a later record with the same to_key silently overwrites an earlier
one. -/
def buildKeyMap (vrps : List CanonVRP) : List (String × CanonVRP) :=
  vrps.foldl (fun m v => putAssoc m (to_key v) v) []

/-- DiffEngine._compute_diff: (added, removed).  Python materializes the set
differences of the dict key views, whose iteration order is unspecified;
the lists are modelled in key-map insertion order and all claims about them
are stated membership-wise. -/
def compute_diff (old_vrps new_vrps : List CanonVRP) : List CanonVRP × List CanonVRP :=
  ((buildKeyMap new_vrps).filter (fun p => ((buildKeyMap old_vrps).lookup p.1).isNone)
      |>.map Prod.snd,
   (buildKeyMap old_vrps).filter (fun p => ((buildKeyMap new_vrps).lookup p.1).isNone)
      |>.map Prod.snd)

/-- DiffEngine._save_diff: write diffs/diff_<serial>.json. -/
def save_diff (s : EngineState) (serial : Nat) (added removed : List CanonVRP)
    (metadata : UpstreamMeta) (now : String) : EngineState :=
  let rec0 : DiffRecord :=
    { serial := serial, timestamp := now, metadata := metadata,
      added_count := added.length, removed_count := removed.length,
      added := added, removed := removed }
  { s with diffFiles := putAssoc s.diffFiles (serial : Int) rec0 }

/-- DiffEngine._save_state: persist snapshots and metadata. -/
def save_state (s : EngineState) : EngineState :=
  let md0 : StateMetaFile :=
    { serial := s.serial, current_hash := s.current_hash,
      last_update := s.last_update, vrp_count := s.current_snapshot.length }
  { s with currentFile := some s.current_snapshot,
           previousFile := some s.previous_snapshot, metadataFile := some md0 }

/-- DiffEngine.process_snapshot; `now` stands for datetime.utcnow().isoformat()
at the update point.  Returns (accepted, state after the call). -/
def process_snapshot (s : EngineState) (vrps : List CanonVRP) (metadata : UpstreamMeta)
    (now : String) : Bool × EngineState :=
  let new_hash := compute_hash vrps
  if new_hash = s.current_hash then (false, s)
  else
    let dr := compute_diff s.current_snapshot vrps
    let new_serial := s.serial + 1
    let s1 :=
      { s with previous_snapshot := s.current_snapshot, current_snapshot := vrps,
               serial := new_serial, current_hash := new_hash, last_update := some now }
    (true, save_state (save_diff s1 new_serial dr.1 dr.2 metadata now))

/-- Return value of DiffEngine.get_current_state. -/
structure CurrentState where
  serial : Nat
  vrp_count : Nat
  hash : String
  last_update : Option String
  vrps : List CanonVRP
deriving DecidableEq, Repr

/-- DiffEngine.get_current_state. -/
def get_current_state (s : EngineState) : CurrentState :=
  { serial := s.serial, vrp_count := s.current_snapshot.length, hash := s.current_hash,
    last_update := s.last_update, vrps := s.current_snapshot }

/-- DiffEngine.get_diff: single-step diffs only; the diff file for to_serial
is looked up on disk and a missing file yields None. -/
def get_diff (s : EngineState) (from_serial to_serial : Int) : Option DiffRecord :=
  if to_serial < from_serial then none
  else if to_serial - from_serial ≠ 1 then none
  else s.diffFiles.lookup to_serial

/-- Result of one file read attempt at startup. -/
inductive FileRead (α : Type) where
  | missing : FileRead α
  | corrupt : FileRead α
  | good : α → FileRead α
deriving DecidableEq, Repr

/-- The state directory as seen by load_state: metadata file, current
snapshot file, previous snapshot file.  `missing` raises FileNotFoundError
on open; `corrupt` raises a non-FileNotFoundError (JSON decode error or a
missing dict key); `good` parses fully. -/
structure StateDir where
  metadataF : FileRead StateMetaFile
  currentF : FileRead (List CanonVRP)
  previousF : FileRead (List CanonVRP)
deriving DecidableEq, Repr

/-- The in-memory fields load_state assigns. -/
structure MemState where
  current_snapshot : List CanonVRP
  previous_snapshot : List CanonVRP
  serial : Nat
  current_hash : String
  last_update : Option String
deriving DecidableEq, Repr

/-- The fresh in-memory state installed by load_state's FileNotFoundError
handler (and matching DiffEngine.__init__). -/
def freshMem : MemState :=
  { current_snapshot := [], previous_snapshot := [], serial := 0, current_hash := "",
    last_update := none }

/-- DiffEngine.load_state.  The outer try/except FileNotFoundError covers the
metadata read AND the current-snapshot read, so a FileNotFoundError from
either initializes fresh state; only the previous-snapshot read has its own
FileNotFoundError handler (empty previous snapshot).  Any other exception
(modelled by `corrupt`) propagates to the caller as Except.error. -/
def load_state (d : StateDir) : Except Unit MemState :=
  match d.metadataF with
  | FileRead.missing => Except.ok freshMem
  | FileRead.corrupt => Except.error ()
  | FileRead.good md =>
    match d.currentF with
    | FileRead.missing => Except.ok freshMem
    | FileRead.corrupt => Except.error ()
    | FileRead.good cur =>
      match d.previousF with
      | FileRead.missing =>
        Except.ok ({ current_snapshot := cur, previous_snapshot := [], serial := md.serial,
                     current_hash := md.current_hash, last_update := md.last_update })
      | FileRead.corrupt => Except.error ()
      | FileRead.good prev =>
        Except.ok ({ current_snapshot := cur, previous_snapshot := prev, serial := md.serial,
                     current_hash := md.current_hash, last_update := md.last_update })

/-- Pydantic construction RoutinagorVRPResponse(**data): every roa record
must pass all field validators, otherwise ValidationError fails the whole
batch and fetch_vrps returns None. -/
def parseResponse (roas : List VRPEntry) : Option (List VRPEntry) :=
  if roas.all validEntry then some roas else none

/-- VRPLoader.fetch_and_process with the HTTP layer already resolved: the
raw roas list is schema-validated; on failure the engine is untouched and
the cycle reports False; on success the canonicalized list is handed to
process_snapshot. -/
def fetch_and_process (s : EngineState) (roas : List VRPEntry) (generated : Int)
    (fetched_at now : String) : Bool × EngineState :=
  match parseResponse roas with
  | none => (false, s)
  | some entries =>
    process_snapshot s (canonicalize_vrps entries)
      ({ generated := generated, fetched_at := fetched_at }) now

/-- Fold running a sequence of process_snapshot calls. -/
def runCalls (s : EngineState) : List (List CanonVRP × UpstreamMeta × String) → EngineState
  | [] => s
  | c :: cs => runCalls (process_snapshot s c.1 c.2.1 c.2.2).2 cs

/-- Sample upstream metadata used by concrete witnesses. -/
def meta0 : UpstreamMeta := { generated := 0, fetched_at := "f" }

/-- A valid entry: AS1, 10.0.0.0/24, maxLength 24, trust anchor ta1. -/
def entA : VRPEntry := { asn := "AS1", pfx := "10.0.0.0/24", maxLength := 24, ta := "ta1" }

/-- Same as entA except for the trust anchor. -/
def entB : VRPEntry := { asn := "AS1", pfx := "10.0.0.0/24", maxLength := 24, ta := "ta2" }

/-- A valid entry with a distinct diff key from entA. -/
def entC : VRPEntry := { asn := "AS2", pfx := "10.1.0.0/24", maxLength := 24, ta := "ta1" }

/-- An entry whose prefix has host bits set (10.0.0.1/24): fails validation. -/
def entBad : VRPEntry := { asn := "AS1", pfx := "10.0.0.1/24", maxLength := 24, ta := "ta1" }

/-- Same record as entA but with the prefix length spelled "024", which
CPython's ipaddress accepts (isdigit + int) and normalizes to /24: a raw
record distinct from entA with an identical dedup key. -/
def entA024 : VRPEntry := { asn := "AS1", pfx := "10.0.0.0/024", maxLength := 24, ta := "ta1" }

/-- Canonical record of entA. -/
def vrpA : CanonVRP := { asn := "AS1", pfx := "10.0.0.0/24", maxLength := 24, ta := "ta1" }

/-- Canonical record of entB: same to_key as vrpA, different trust anchor. -/
def vrpB : CanonVRP := { asn := "AS1", pfx := "10.0.0.0/24", maxLength := 24, ta := "ta2" }

/-- Canonical record with a diff key distinct from vrpA and vrpB. -/
def vrpC : CanonVRP := { asn := "AS2", pfx := "10.1.0.0/24", maxLength := 24, ta := "ta1" }

/-- Canonical record with a third distinct diff key. -/
def vrpD : CanonVRP := { asn := "AS3", pfx := "10.2.0.0/24", maxLength := 24, ta := "ta1" }

/-- An engine state whose current hash is the hash of the empty snapshot. -/
def hashedState : EngineState := { DiffEngine.init with current_hash := compute_hash [] }

/-- Well-formed metadata file content used in the load_state scenarios. -/
def mdGood : StateMetaFile := { serial := 5, current_hash := "h", last_update := none, vrp_count := 0 }

/-- A state directory with readable metadata but a missing current snapshot. -/
def dirMissingCurrent : StateDir :=
  { metadataF := FileRead.good mdGood, currentF := FileRead.missing, previousF := FileRead.missing }

/-- The in-memory state load_state builds from parsed files. -/
def loadedMem (md : StateMetaFile) (cur prev : List CanonVRP) : MemState :=
  { current_snapshot := cur, previous_snapshot := prev, serial := md.serial,
    current_hash := md.current_hash, last_update := md.last_update }

/-! ## Theorems -/

/-- The hex digest of SHA-256 is a 64-character string, never empty, so it
never collides with the initial empty current_hash. -/
theorem compute_hash_ne_empty (v : List CanonVRP) : compute_hash v ≠ "" := by
  unfold compute_hash sha256hex
  intro h
  have h2 := congrArg String.data h
  simp [hexWord8] at h2

/-- Serial never changes on a rejected call. -/
theorem process_serial_cases (s : EngineState) (vrps : List CanonVRP)
    (metadata : UpstreamMeta) (now : String) :
    (process_snapshot s vrps metadata now).2.serial =
      (if (process_snapshot s vrps metadata now).1 then s.serial + 1 else s.serial) := by
  by_cases h : compute_hash vrps = s.current_hash <;>
    simp [process_snapshot, h, save_state, save_diff]

/-- Serial is monotone over one call. -/
theorem process_serial_le (s : EngineState) (vrps : List CanonVRP)
    (metadata : UpstreamMeta) (now : String) :
    s.serial ≤ (process_snapshot s vrps metadata now).2.serial := by
  rw [process_serial_cases]
  by_cases h : (process_snapshot s vrps metadata now).1 <;> simp [h]

/-- Serial is monotone over any call trace. -/
theorem runCalls_serial_le (calls : List (List CanonVRP × UpstreamMeta × String))
    (s : EngineState) : s.serial ≤ (runCalls s calls).serial := by
  induction calls generalizing s with
  | nil => exact Nat.le_refl _
  | cons c cs ih =>
    exact Nat.le_trans (process_serial_le s c.1 c.2.1 c.2.2) (ih _)

/-- C2: an accepted process_snapshot call advances the serial by exactly 1, a
rejected call leaves it unchanged, and across any sequence of calls the
serial never decreases and never skips a value (each call changes it by 0
or 1). -/
theorem C2_serial_strictly_monotone (s : EngineState) (vrps : List CanonVRP)
    (metadata : UpstreamMeta) (now : String)
    (calls : List (List CanonVRP × UpstreamMeta × String)) :
    ((process_snapshot s vrps metadata now).1 = true →
      (process_snapshot s vrps metadata now).2.serial = s.serial + 1) ∧
    ((process_snapshot s vrps metadata now).1 = false →
      (process_snapshot s vrps metadata now).2.serial = s.serial) ∧
    s.serial ≤ (runCalls s calls).serial := by
  refine ⟨fun h => ?_, fun h => ?_, runCalls_serial_le calls s⟩
  · rw [process_serial_cases, if_pos h]
  · rw [process_serial_cases, if_neg (by simp [h])]

/-- Witness for C2: on a fresh engine an empty batch is accepted and the
serial advances from 0 to 1; re-submitting the identical batch is rejected
and the serial stays 1. -/
theorem C2_witness :
    (process_snapshot DiffEngine.init [] meta0 "t").2.serial = DiffEngine.init.serial + 1 ∧
    (process_snapshot hashedState [] meta0 "t").2.serial = hashedState.serial := by
  constructor
  · apply (C2_serial_strictly_monotone DiffEngine.init [] meta0 "t" []).1
    simp [process_snapshot, DiffEngine.init, compute_hash_ne_empty]
  · apply (C2_serial_strictly_monotone hashedState [] meta0 "t" []).2.1
    simp [process_snapshot, hashedState]

/-- C3: a candidate sequence whose hash equals the current hash is rejected
with no mutation at all: the returned state (including serial, snapshots,
hash, timestamp, and every persisted file) is exactly the input state. -/
theorem C3_no_change_is_pure_noop (s : EngineState) (vrps : List CanonVRP)
    (metadata : UpstreamMeta) (now : String)
    (h : compute_hash vrps = s.current_hash) :
    process_snapshot s vrps metadata now = (false, s) := by
  simp [process_snapshot, h]

/-- Witness for C3: submitting the empty snapshot to an engine whose current
hash is the hash of the empty snapshot is a no-op. -/
theorem C3_witness : process_snapshot hashedState [] meta0 "t" = (false, hashedState) :=
  C3_no_change_is_pure_noop hashedState [] meta0 "t" rfl

/-- C8: get_diff returns the stored diff record exactly when the requested
range is a single step forward (to - from = 1, which forces to > from) and
the diff file for to_serial exists; wider ranges, inverted ranges and a
missing file all return the not-found value None. -/
theorem C8_get_diff_single_step (s : EngineState) (from_serial to_serial : Int) :
    get_diff s from_serial to_serial =
      if to_serial - from_serial = 1 then s.diffFiles.lookup to_serial else none := by
  unfold get_diff
  by_cases h1 : to_serial < from_serial
  · rw [if_pos h1, if_neg (by omega)]
  · rw [if_neg h1]
    by_cases h2 : to_serial - from_serial = 1 <;> simp [h2]

/-- C10: on a fresh engine (empty current hash, serial 0) every candidate is
accepted — the SHA-256 hex digest is never the empty string — including the
empty candidate list, which advances the serial to 1 with an empty snapshot. -/
theorem C10_fresh_engine_accepts_everything (s : EngineState) (vrps : List CanonVRP)
    (metadata : UpstreamMeta) (now : String)
    (h1 : s.current_hash = "") (h2 : s.serial = 0) :
    (process_snapshot s vrps metadata now).1 = true ∧
    (process_snapshot s vrps metadata now).2.serial = 1 ∧
    (process_snapshot s vrps metadata now).2.current_snapshot = vrps := by
  have hne : ¬ compute_hash vrps = s.current_hash := by
    rw [h1]; exact compute_hash_ne_empty vrps
  simp [process_snapshot, hne, save_state, save_diff, h2]

/-- Witness for C10: the fresh engine accepts the empty batch, reaching
serial 1 with an empty snapshot. -/
theorem C10_witness :
    (process_snapshot DiffEngine.init [] meta0 "t").1 = true ∧
    (process_snapshot DiffEngine.init [] meta0 "t").2.serial = 1 ∧
    (process_snapshot DiffEngine.init [] meta0 "t").2.current_snapshot = [] :=
  C10_fresh_engine_accepts_everything DiffEngine.init [] meta0 "t" rfl rfl

/-- C6: validation is all-or-nothing — if any record of the batch fails a
field validator, schema validation raises, fetch_vrps returns None,
process_snapshot is never reached, and the engine state (snapshot, serial,
hash, files) is exactly unchanged. -/
theorem C6_validation_all_or_nothing (s : EngineState) (roas : List VRPEntry)
    (generated : Int) (fetched_at now : String)
    (h : ∃ r ∈ roas, validEntry r = false) :
    fetch_and_process s roas generated fetched_at now = (false, s) := by
  have hall : roas.all validEntry = false := by
    rcases h with ⟨r, hr, hv⟩
    cases hA : roas.all validEntry
    · rfl
    · exact absurd (List.all_eq_true.mp hA r hr) (by simp [hv])
  simp [fetch_and_process, parseResponse, hall]

/-- Witness for C6: a batch containing the host-bits prefix 10.0.0.1/24 is
rejected whole (even though its other record is valid) and the fresh engine
is untouched. -/
theorem C6_witness :
    fetch_and_process DiffEngine.init [entA, entBad] 0 "f" "t" = (false, DiffEngine.init) :=
  C6_validation_all_or_nothing DiffEngine.init [entA, entBad] 0 "f" "t"
    ⟨entBad, by decide, by decide⟩

/-- C7 counterexample: the claim says fresh initialization happens exactly
when the metadata file is missing, and a missing current-snapshot file with
metadata present propagates a fatal error; but with readable metadata and a
missing current snapshot, load_state silently initializes fresh state and
reports no error, because the outer except FileNotFoundError also covers
the current-snapshot open. -/
theorem C7_counterexample :
    dirMissingCurrent.metadataF ≠ FileRead.missing ∧
    load_state dirMissingCurrent = Except.ok freshMem := by
  constructor
  · intro h
    cases h
  · rfl

/-- C7 amended: load_state initializes Fresh state exactly when the metadata
file is missing OR when metadata is present and parses but the
current-snapshot file is missing; corrupt (unparseable) metadata, current
or previous snapshot files propagate a fatal error; a missing previous
snapshot alone loads normally with an empty previous snapshot. -/
theorem C7_load_state_amended (d : StateDir) :
    (d.metadataF = FileRead.missing → load_state d = Except.ok freshMem) ∧
    (d.metadataF = FileRead.corrupt → load_state d = Except.error ()) ∧
    (∀ md, d.metadataF = FileRead.good md → d.currentF = FileRead.missing →
      load_state d = Except.ok freshMem) ∧
    (∀ md, d.metadataF = FileRead.good md → d.currentF = FileRead.corrupt →
      load_state d = Except.error ()) ∧
    (∀ md cur, d.metadataF = FileRead.good md → d.currentF = FileRead.good cur →
      d.previousF = FileRead.corrupt → load_state d = Except.error ()) ∧
    (∀ md cur, d.metadataF = FileRead.good md → d.currentF = FileRead.good cur →
      d.previousF = FileRead.missing → load_state d = Except.ok (loadedMem md cur [])) ∧
    (∀ md cur prev, d.metadataF = FileRead.good md → d.currentF = FileRead.good cur →
      d.previousF = FileRead.good prev → load_state d = Except.ok (loadedMem md cur prev)) := by
  obtain ⟨mf, cf, pf⟩ := d
  cases mf <;> cases cf <;> cases pf <;> simp [load_state, loadedMem]

/-- Witness for C7 amended: applied to the metadata-present, current-missing
directory it yields fresh state. -/
theorem C7_witness : load_state dirMissingCurrent = Except.ok freshMem :=
  (C7_load_state_amended dirMissingCurrent).2.2.1 mdGood rfl rfl

/-- Lookup misses exactly the keys not in the map. -/
theorem lookup_none_iff {α β : Type} [BEq α] [LawfulBEq α] (m : List (α × β)) (k : α) :
    m.lookup k = none ↔ k ∉ m.map Prod.fst := by
  induction m with
  | nil => simp
  | cons p m ih =>
    obtain ⟨a, b⟩ := p
    by_cases h : k = a
    · subst h; simp [List.lookup]
    · have hb : (k == a) = false := beq_false_of_ne h
      simp [List.lookup, hb, h, ih]

/-- When the keys of a list are pairwise distinct, the dict comprehension
over it never overwrites: it is the plain pairing list. -/
theorem buildKeyMap_go (l : List CanonVRP) :
    ∀ acc : List (String × CanonVRP),
    (acc.map Prod.fst ++ l.map to_key).Nodup →
    l.foldl (fun m v => putAssoc m (to_key v) v) acc =
      acc ++ l.map (fun v => (to_key v, v)) := by
  induction l with
  | nil => intro acc _; simp
  | cons v vs ih =>
    intro acc h
    have hnotin : to_key v ∉ acc.map Prod.fst := by
      intro hmem
      have hd := List.disjoint_of_nodup_append h
      exact hd hmem (by simp)
    have hstep : putAssoc acc (to_key v) v = acc ++ [(to_key v, v)] := by
      have : acc.lookup (to_key v) = none := (lookup_none_iff acc (to_key v)).mpr hnotin
      simp [putAssoc, this]
    rw [List.foldl_cons, hstep, ih (acc ++ [(to_key v, v)]) (by simpa using h)]
    simp

/-- buildKeyMap under distinct keys is the pairing list. -/
theorem buildKeyMap_eq (l : List CanonVRP) (h : (l.map to_key).Nodup) :
    buildKeyMap l = l.map (fun v => (to_key v, v)) := by
  simpa using buildKeyMap_go l [] (by simpa using h)

/-- C5 counterexample: the claim requires added to contain every record of
new whose diff key is absent from old; with old empty and two new records
sharing a diff key (differing only in trust anchor), the later record
overwrites the earlier one in the diff key map, so vrpA is missing from
added even though its key matches nothing in old. -/
theorem C5_counterexample :
    to_key vrpA = to_key vrpB ∧ vrpA ≠ vrpB ∧
    vrpA ∉ (compute_diff [] [vrpA, vrpB]).1 ∧
    (compute_diff [] [vrpA, vrpB]).1 = [vrpB] := by decide

/-- C5 amended: when diff keys are pairwise distinct within old and within
new (in particular whenever no two records of a snapshot differ only in
trust anchor), added consists exactly of the records of new whose key
appears in no record of old, and removed exactly of the records of old
whose key appears in no record of new; a record whose key appears on both
sides is reported in neither.  In general each set contains one
representative (the last in key-map order) per one-sided key. -/
theorem C5_diff_partition (old_vrps new_vrps : List CanonVRP)
    (ho : (old_vrps.map to_key).Nodup) (hn : (new_vrps.map to_key).Nodup) :
    (∀ x, x ∈ (compute_diff old_vrps new_vrps).1 ↔
      (x ∈ new_vrps ∧ ∀ y ∈ old_vrps, to_key y ≠ to_key x)) ∧
    (∀ x, x ∈ (compute_diff old_vrps new_vrps).2 ↔
      (x ∈ old_vrps ∧ ∀ y ∈ new_vrps, to_key y ≠ to_key x)) := by
  unfold compute_diff
  rw [buildKeyMap_eq old_vrps ho, buildKeyMap_eq new_vrps hn]
  constructor
  · intro x
    simp only [List.filter_map, List.map_map, List.mem_map, List.mem_filter,
      Function.comp]
    constructor
    · rintro ⟨v, ⟨hv, hnone⟩, rfl⟩
      refine ⟨hv, fun y hy hkey => ?_⟩
      rw [Option.isNone_iff_eq_none, lookup_none_iff] at hnone
      exact hnone (by
        simp only [List.map_map]
        exact List.mem_map.mpr ⟨y, hy, hkey⟩)
    · rintro ⟨hv, hkeys⟩
      refine ⟨x, ⟨hv, ?_⟩, rfl⟩
      rw [Option.isNone_iff_eq_none, lookup_none_iff]
      simp only [List.map_map]
      intro hmem
      obtain ⟨y, hy, hkey⟩ := List.mem_map.mp hmem
      exact hkeys y hy hkey
  · intro x
    simp only [List.filter_map, List.map_map, List.mem_map, List.mem_filter,
      Function.comp]
    constructor
    · rintro ⟨v, ⟨hv, hnone⟩, rfl⟩
      refine ⟨hv, fun y hy hkey => ?_⟩
      rw [Option.isNone_iff_eq_none, lookup_none_iff] at hnone
      exact hnone (by
        simp only [List.map_map]
        exact List.mem_map.mpr ⟨y, hy, hkey⟩)
    · rintro ⟨hv, hkeys⟩
      refine ⟨x, ⟨hv, ?_⟩, rfl⟩
      rw [Option.isNone_iff_eq_none, lookup_none_iff]
      simp only [List.map_map]
      intro hmem
      obtain ⟨y, hy, hkey⟩ := List.mem_map.mp hmem
      exact hkeys y hy hkey

/-- Witness for C5: the spec's own instance — old = \x7bA, B\x7d, new = \x7bB, C\x7d
with pairwise distinct keys gives added = \x7bC\x7d and removed = \x7bA\x7d. -/
theorem C5_witness :
    vrpD ∈ (compute_diff [vrpA, vrpC] [vrpC, vrpD]).1 ∧
    vrpC ∉ (compute_diff [vrpA, vrpC] [vrpC, vrpD]).1 ∧
    vrpA ∈ (compute_diff [vrpA, vrpC] [vrpC, vrpD]).2 ∧
    vrpC ∉ (compute_diff [vrpA, vrpC] [vrpC, vrpD]).2 := by
  have h := C5_diff_partition [vrpA, vrpC] [vrpC, vrpD] (by decide) (by decide)
  refine ⟨(h.1 vrpD).mpr ⟨by decide, by decide⟩, fun hc => ?_,
    (h.2 vrpA).mpr ⟨by decide, by decide⟩, fun hc => ?_⟩
  · exact absurd ((h.1 vrpC).mp hc) (by decide)
  · exact absurd ((h.2 vrpC).mp hc) (by decide)

/-- digitCh produces a decimal digit character. -/
theorem digitCh_isDigit (n : Nat) : isDigitCh (digitCh n) = true := by
  unfold digitCh
  split <;> decide

/-- Numeric value of digitCh. -/
theorem digitCh_toNat (n : Nat) : (digitCh n).toNat = 48 + n % 10 := by
  have h10 : n % 10 < 10 := Nat.mod_lt _ (by norm_num)
  unfold digitCh
  generalize hk : n % 10 = k at h10 ⊢
  interval_cases k <;> decide

/-- Every character of a rendered natural number is a decimal digit. -/
theorem natDecCore_digits (fuel : Nat) :
    ∀ n c, c ∈ natDecCore fuel n → isDigitCh c = true := by
  induction fuel with
  | zero => intro n c hc; simp [natDecCore] at hc
  | succ fuel ih =>
    intro n c hc
    unfold natDecCore at hc
    by_cases h : n < 10
    · rw [if_pos h] at hc
      simp at hc
      rw [hc]
      exact digitCh_isDigit n
    · rw [if_neg h] at hc
      rcases List.mem_append.mp hc with h1 | h2
      · exact ih _ c h1
      · simp at h2
        rw [h2]
        exact digitCh_isDigit _
/-- Folding the decimal value over the rendering recovers the number. -/
theorem natDecCore_val (fuel : Nat) :
    ∀ n a, n < 10 ^ fuel →
      List.foldl (fun a c => a * 10 + (c.toNat - 48)) a (natDecCore fuel n) =
        a * 10 ^ (natDecCore fuel n).length + n := by
  induction fuel with
  | zero =>
    intro n a h
    interval_cases n
    simp [natDecCore]
  | succ fuel ih =>
    intro n a h
    unfold natDecCore
    by_cases h10 : n < 10
    · rw [if_pos h10]
      simp [digitCh_toNat]
      omega
    · rw [if_neg h10]
      have hdiv : n / 10 < 10 ^ fuel := by
        rw [Nat.div_lt_iff_lt_mul (by norm_num)]
        calc n < 10 ^ (fuel + 1) := h
        _ = 10 ^ fuel * 10 := by rw [Nat.pow_succ]
      rw [List.foldl_append, ih (n / 10) a hdiv]
      simp [digitCh_toNat, Nat.pow_succ]
      have hm : n % 10 < 10 := Nat.mod_lt _ (by norm_num)
      have hdm := Nat.div_add_mod n 10
      set X := 10 ^ (natDecCore fuel (n / 10)).length
      calc (a * X + n / 10) * 10 + n % 10
          = a * X * 10 + (10 * (n / 10) + n % 10) := by ring
        _ = a * (X * 10) + n := by rw [hdm]; ring

/-- The decimal rendering evaluates back to the number. -/
theorem natDec_val (n : Nat) :
    List.foldl (fun a c => a * 10 + (c.toNat - 48)) 0 (natDec n).data = n := by
  have hb : n < 10 ^ (n + 1) :=
    Nat.lt_of_lt_of_le (Nat.lt_pow_self (by norm_num) n)
      (Nat.pow_le_pow_right (by norm_num) (Nat.le_succ n))
  unfold natDec
  rw [show (String.mk (natDecCore (n + 1) n)).data = natDecCore (n + 1) n from rfl]
  rw [natDecCore_val (n + 1) n 0 hb]
  omega

/-- Decimal rendering of naturals is injective. -/
theorem natDec_inj {n₁ n₂ : Nat} (h : natDec n₁ = natDec n₂) : n₁ = n₂ := by
  have h₁ := natDec_val n₁
  rw [h, natDec_val n₂] at h₁
  exact h₁.symm

/-- For a nonnegative int the Python str rendering is the natural rendering. -/
theorem intDec_nonneg {m : Int} (h : 0 ≤ m) : intDec m = natDec m.toNat := by
  unfold intDec
  rw [if_neg (by omega)]

/-- Decimal rendering of validated (nonnegative) ints is injective. -/
theorem intDec_inj {m₁ m₂ : Int} (h₁ : 0 ≤ m₁) (h₂ : 0 ≤ m₂)
    (h : intDec m₁ = intDec m₂) : m₁ = m₂ := by
  rw [intDec_nonneg h₁, intDec_nonneg h₂] at h
  have := natDec_inj h
  omega

/-- A decimal digit is not the separator bar. -/
theorem isDigit_ne_bar {c : Char} (h : isDigitCh c = true) : c ≠ '|' := by
  intro hc
  subst hc
  exact absurd h (by decide)

/-- Rendered naturals contain no separator bar. -/
theorem natDec_ne_bar (n : Nat) : ∀ c ∈ (natDec n).data, c ≠ '|' := by
  intro c hc
  exact isDigit_ne_bar (natDecCore_digits (n + 1) n c hc)

/-- Rendered nonnegative ints contain no separator bar. -/
theorem intDec_ne_bar {m : Int} (h : 0 ≤ m) : ∀ c ∈ (intDec m).data, c ≠ '|' := by
  rw [intDec_nonneg h]
  exact natDec_ne_bar m.toNat

/-- Appending preserves bar-freeness. -/
theorem append_ne_bar (s t : String) (hs : ∀ c ∈ s.data, c ≠ '|')
    (ht : ∀ c ∈ t.data, c ≠ '|') : ∀ c ∈ (s ++ t).data, c ≠ '|' := by
  intro c hc
  rw [String.data_append] at hc
  rcases List.mem_append.mp hc with h | h
  · exact hs c h
  · exact ht c h

/-- Normalized prefix strings contain no separator bar. -/
theorem renderIPv4_ne_bar (np : Nat × Nat) : ∀ c ∈ (renderIPv4 np).data, c ≠ '|' := by
  obtain ⟨a, p⟩ := np
  have hdot : ∀ c ∈ ("." : String).data, c ≠ '|' := by decide
  have hslash : ∀ c ∈ ("/" : String).data, c ≠ '|' := by decide
  have h1 := append_ne_bar _ _ (natDec_ne_bar (a / 16777216 % 256)) hdot
  have h2 := append_ne_bar _ _ h1 (natDec_ne_bar (a / 65536 % 256))
  have h3 := append_ne_bar _ _ h2 hdot
  have h4 := append_ne_bar _ _ h3 (natDec_ne_bar (a / 256 % 256))
  have h5 := append_ne_bar _ _ h4 hdot
  have h6 := append_ne_bar _ _ h5 (natDec_ne_bar (a % 256))
  have h7 := append_ne_bar _ _ h6 hslash
  exact append_ne_bar _ _ h7 (natDec_ne_bar p)

/-- A validated ASN string ("AS" then an integer) contains no separator bar. -/
theorem validate_asn_ne_bar {s : String} (hv : validate_asn s = true) :
    ∀ c ∈ s.data, c ≠ '|' := by
  unfold validate_asn at hv
  split at hv
  case _ rest heq =>
    have hrest : ∀ c ∈ rest, c ≠ '|' := by
      split at hv
      case _ v heq2 =>
        unfold parsePyInt at heq2
        split at heq2
        case _ ds heq3 =>
          split at heq2
          case isTrue hd =>
            intro c hc
            rcases List.mem_cons.mp hc with h | h
            · rw [h]; decide
            · exact isDigit_ne_bar (List.all_eq_true.mp hd.2 c h)
          case isFalse => exact absurd heq2 (by simp)
        case _ =>
          split at heq2
          case isTrue hd =>
            intro c hc
            exact isDigit_ne_bar (List.all_eq_true.mp hd.2 c hc)
          case isFalse => exact absurd heq2 (by simp)
      case _ => exact absurd hv (by simp)
    rw [heq]
    intro c hc
    rcases List.mem_cons.mp hc with h | h
    · rw [h]; decide
    · rcases List.mem_cons.mp h with h2 | h2
      · rw [h2]; decide
      · exact hrest c h2
  case _ => exact absurd hv (by simp)

/-- A validated prefix string normalizes to a rendered network. -/
theorem validate_pfx_normalized {s : String} (hv : validate_pfx s = true) :
    ∃ np, ip_network_strict s = some np ∧ normalizePfx s = renderIPv4 np := by
  unfold validate_pfx at hv
  obtain ⟨np, hnp⟩ := Option.isSome_iff_exists.mp hv
  exact ⟨np, hnp, by unfold normalizePfx; rw [hnp]⟩

/-- The normalized prefix of a validated prefix contains no separator bar. -/
theorem normalizePfx_ne_bar {s : String} (hv : validate_pfx s = true) :
    ∀ c ∈ (normalizePfx s).data, c ≠ '|' := by
  obtain ⟨np, _, hn⟩ := validate_pfx_normalized hv
  rw [hn]
  exact renderIPv4_ne_bar np

/-- Splitting at the first bar: if two bar-free heads are followed by a bar
and arbitrary tails and the concatenations agree, heads and tails agree. -/
theorem splitBar : ∀ (a₁ a₂ t₁ t₂ : List Char), (∀ c ∈ a₁, c ≠ '|') →
    (∀ c ∈ a₂, c ≠ '|') → a₁ ++ '|' :: t₁ = a₂ ++ '|' :: t₂ → a₁ = a₂ ∧ t₁ = t₂ := by
  intro a₁
  induction a₁ with
  | nil =>
    intro a₂ t₁ t₂ _ h2 heq
    cases a₂ with
    | nil => simpa using heq
    | cons b bs =>
      simp at heq
      exact absurd heq.1.symm (h2 b (by simp))
  | cons a as ih =>
    intro a₂ t₁ t₂ h1 h2 heq
    cases a₂ with
    | nil =>
      simp at heq
      exact absurd heq.1 (h1 a (by simp))
    | cons b bs =>
      simp at heq
      obtain ⟨hab, hrest⟩ := heq
      obtain ⟨h3, h4⟩ := ih bs t₁ t₂ (fun c hc => h1 c (by simp [hc]))
        (fun c hc => h2 c (by simp [hc])) hrest
      exact ⟨by rw [hab, h3], h4⟩

/-- A dedup-key (canonicalize) collision between two validated entries forces
all four projected components to agree: same ASN string, same normalized
prefix, same maxLength, same trust anchor. -/
theorem canonicalize_eq_components {e₁ e₂ : VRPEntry}
    (h₁ : validEntry e₁ = true) (h₂ : validEntry e₂ = true)
    (h : VRPEntry.canonicalize e₁ = VRPEntry.canonicalize e₂) :
    e₁.asn = e₂.asn ∧ normalizePfx e₁.pfx = normalizePfx e₂.pfx ∧
      e₁.maxLength = e₂.maxLength ∧ e₁.ta = e₂.ta := by
  have hv₁ : validate_asn e₁.asn = true ∧ validate_pfx e₁.pfx = true ∧
      validate_maxLength e₁.maxLength = true := by
    unfold validEntry at h₁; simp at h₁; exact ⟨h₁.1.1, h₁.1.2, h₁.2⟩
  have hv₂ : validate_asn e₂.asn = true ∧ validate_pfx e₂.pfx = true ∧
      validate_maxLength e₂.maxLength = true := by
    unfold validEntry at h₂; simp at h₂; exact ⟨h₂.1.1, h₂.1.2, h₂.2⟩
  have hm₁ : (0 : Int) ≤ e₁.maxLength := by
    have := hv₁.2.2; unfold validate_maxLength at this; simp at this; exact this.1
  have hm₂ : (0 : Int) ≤ e₂.maxLength := by
    have := hv₂.2.2; unfold validate_maxLength at this; simp at this; exact this.1
  have hdata := congrArg String.data h
  simp only [VRPEntry.canonicalize, String.data_append,
    show ("|" : String).data = ['|'] from rfl, List.append_assoc, List.cons_append,
    List.nil_append] at hdata
  obtain ⟨hasn, hdata2⟩ := splitBar _ _ _ _ (validate_asn_ne_bar hv₁.1)
    (validate_asn_ne_bar hv₂.1) hdata
  obtain ⟨hpfx, hdata3⟩ := splitBar _ _ _ _ (normalizePfx_ne_bar hv₁.2.1)
    (normalizePfx_ne_bar hv₂.2.1) hdata2
  obtain ⟨hml, hta⟩ := splitBar _ _ _ _ (intDec_ne_bar hm₁) (intDec_ne_bar hm₂) hdata3
  exact ⟨String.ext hasn, String.ext hpfx,
    intDec_inj hm₁ hm₂ (String.ext hml), String.ext hta⟩

/-- Validated entries with equal dedup keys store identical canonical dicts. -/
theorem canonDict_eq_of_key_eq {e₁ e₂ : VRPEntry}
    (h₁ : validEntry e₁ = true) (h₂ : validEntry e₂ = true)
    (h : VRPEntry.canonicalize e₁ = VRPEntry.canonicalize e₂) :
    canonDict e₁ = canonDict e₂ := by
  obtain ⟨ha, hp, hm, ht⟩ := canonicalize_eq_components h₁ h₂ h
  unfold canonDict
  rw [ha, hp, hm, ht]

/-- C1 counterexample: the deduplication key (VRPEntry.canonicalize, which
includes the trust anchor) and the diff key (to_key, which omits it) are
NOT the same projection: two valid records identical except for the trust
anchor collide under the diff key but not under the dedup key, refuting the
claimed equivalence. -/
theorem C1_counterexample :
    validEntry entA = true ∧ validEntry entB = true ∧
    to_key (canonDict entA) = to_key (canonDict entB) ∧
    VRPEntry.canonicalize entA ≠ VRPEntry.canonicalize entB := by decide

/-- C1 amended: the two key projections are not equivalent, but one
direction holds — for valid records a collision under the deduplication key
(canonicalize) implies a collision under the diff-matching key (to_key);
the converse fails exactly for records differing only in the trust anchor,
which the dedup key includes and the diff key omits. -/
theorem C1_dedup_key_determines_diff_key (e₁ e₂ : VRPEntry)
    (h₁ : validEntry e₁ = true) (h₂ : validEntry e₂ = true)
    (h : VRPEntry.canonicalize e₁ = VRPEntry.canonicalize e₂) :
    to_key (canonDict e₁) = to_key (canonDict e₂) := by
  rw [canonDict_eq_of_key_eq h₁ h₂ h]

/-- Witness for C1 amended: entA and entA024 are distinct raw records whose
dedup keys agree (prefix-length spelling "024" normalizes to 24), and the
theorem yields their diff-key collision. -/
theorem C1_witness : to_key (canonDict entA) = to_key (canonDict entA024) :=
  C1_dedup_key_determines_diff_key entA entA024 (by decide) (by decide) (by decide)

/-- A successful lookup locates a pair of the map. -/
theorem lookup_some_mem {α β : Type} [BEq α] [LawfulBEq α] {m : List (α × β)} {k : α}
    {v : β} (h : m.lookup k = some v) : (k, v) ∈ m := by
  induction m with
  | nil => simp [List.lookup] at h
  | cons p m ih =>
    obtain ⟨a, b⟩ := p
    by_cases hk : k = a
    · subst hk
      simp [List.lookup] at h
      simp [h]
    · have hb : (k == a) = false := beq_false_of_ne hk
      simp [List.lookup, hb] at h
      exact List.mem_cons_of_mem _ (ih h)

/-- Under distinct keys, membership determines the lookup result. -/
theorem mem_lookup_of_nodup {α β : Type} [BEq α] [LawfulBEq α] {m : List (α × β)} {k : α}
    {v : β} (hnd : (m.map Prod.fst).Nodup) (h : (k, v) ∈ m) : m.lookup k = some v := by
  induction m with
  | nil => simp at h
  | cons p m ih =>
    obtain ⟨a, b⟩ := p
    rcases List.mem_cons.mp h with h1 | h1
    · obtain ⟨rfl, rfl⟩ := Prod.mk.injEq .. ▸ h1
      simp [List.lookup]
    · have hk : k ≠ a := by
        rintro rfl
        have : k ∈ m.map Prod.fst := List.mem_map.mpr ⟨(k, v), h1, rfl⟩
        exact (List.nodup_cons.mp (by simpa using hnd)).1 this
      have hb : (k == a) = false := beq_false_of_ne hk
      simp [List.lookup, hb]
      exact ih (List.nodup_cons.mp (by simpa using hnd)).2 h1

/-- Lookup in the canonical_map built by the dedup loop, with a general
accumulator: accumulator entries win, otherwise the first input record with
the requested canonical key provides the stored dict. -/
theorem dedupPairs_go_lookup (l : List VRPEntry) :
    ∀ (acc : List (String × CanonVRP)) (k : String),
    (l.foldl canonical_fold acc).lookup k =
      (acc.lookup k).or
        ((l.find? (fun e => VRPEntry.canonicalize e == k)).map canonDict) := by
  induction l with
  | nil => intro acc k; simp
  | cons e es ih =>
    intro acc k
    rw [List.foldl_cons, ih]
    by_cases hk : VRPEntry.canonicalize e = k
    · subst hk
      unfold canonical_fold
      by_cases hacc : (acc.lookup (VRPEntry.canonicalize e)).isSome
      · rw [if_pos hacc]
        obtain ⟨w, hw⟩ := Option.isSome_iff_exists.mp hacc
        rw [hw]
        simp [List.find?_cons]
      · rw [if_neg hacc]
        have hnone : acc.lookup (VRPEntry.canonicalize e) = none := by
          cases hcase : acc.lookup (VRPEntry.canonicalize e)
          · rfl
          · exact absurd (by simp [hcase]) hacc
        rw [List.lookup_append, hnone]
        simp [List.lookup, List.find?_cons]
    · have hbeq : (VRPEntry.canonicalize e == k) = false := by
        simp [hk]
      unfold canonical_fold
      by_cases hacc : (acc.lookup (VRPEntry.canonicalize e)).isSome
      · rw [if_pos hacc]
        simp [List.find?_cons, hbeq]
      · rw [if_neg hacc, List.lookup_append]
        have hsingle : List.lookup k [(VRPEntry.canonicalize e, canonDict e)] = none := by
          have : (k == VRPEntry.canonicalize e) = false :=
            beq_false_of_ne (fun hc => hk hc.symm)
          simp [List.lookup, this]
        rw [hsingle, Option.or_none]
        simp [List.find?_cons, hbeq]

/-- Lookup in the finished canonical_map: the first input record with the
requested canonical key provides the stored dict. -/
theorem dedupPairs_lookup (l : List VRPEntry) (k : String) :
    (dedupPairs l).lookup k =
      (l.find? (fun e => VRPEntry.canonicalize e == k)).map canonDict := by
  unfold dedupPairs
  rw [dedupPairs_go_lookup l [] k]
  simp

/-- The canonical_map keys stay pairwise distinct through the dedup loop. -/
theorem dedupPairs_go_keys_nodup (l : List VRPEntry) :
    ∀ acc : List (String × CanonVRP), (acc.map Prod.fst).Nodup →
      ((l.foldl canonical_fold acc).map Prod.fst).Nodup := by
  induction l with
  | nil => intro acc h; simpa using h
  | cons e es ih =>
    intro acc h
    rw [List.foldl_cons]
    apply ih
    unfold canonical_fold
    by_cases hacc : (acc.lookup (VRPEntry.canonicalize e)).isSome
    · rw [if_pos hacc]; exact h
    · rw [if_neg hacc]
      have hnone : acc.lookup (VRPEntry.canonicalize e) = none := by
        cases hcase : acc.lookup (VRPEntry.canonicalize e)
        · rfl
        · exact absurd (by simp [hcase]) hacc
      have hnot : VRPEntry.canonicalize e ∉ acc.map Prod.fst :=
        (lookup_none_iff acc (VRPEntry.canonicalize e)).mp hnone
      simp [List.nodup_append, h, hnot]

/-- The canonical_map keys are pairwise distinct. -/
theorem dedupPairs_keys_nodup (l : List VRPEntry) :
    ((dedupPairs l).map Prod.fst).Nodup :=
  dedupPairs_go_keys_nodup l [] (by simp)

/-- Every stored pair of the canonical_map is keyed by the canonicalize key
of the first input record bearing it, and stores that record's dict. -/
theorem dedupPairs_pair_char (l : List VRPEntry) {k : String} {v : CanonVRP}
    (h : (k, v) ∈ dedupPairs l) :
    ∃ e, l.find? (fun e₀ => VRPEntry.canonicalize e₀ == k) = some e ∧
      v = canonDict e ∧ k = VRPEntry.canonicalize e := by
  have hl := mem_lookup_of_nodup (dedupPairs_keys_nodup l) h
  rw [dedupPairs_lookup] at hl
  obtain ⟨e, he, hv⟩ := Option.map_eq_some'.mp hl
  have hp := List.find?_some he
  simp only [beq_iff_eq] at hp
  exact ⟨e, he, hv.symm, hp.symm⟩

/-- On acceptance the candidate list becomes the current snapshot verbatim. -/
theorem process_accepted_snapshot (s : EngineState) (vrps : List CanonVRP)
    (metadata : UpstreamMeta) (now : String)
    (h : (process_snapshot s vrps metadata now).1 = true) :
    (process_snapshot s vrps metadata now).2.current_snapshot = vrps := by
  by_cases hh : compute_hash vrps = s.current_hash
  · rw [process_snapshot] at h
    simp [hh] at h
  · simp [process_snapshot, hh, save_state, save_diff]

/-- The canonical sequence is a permutation of the dict values of the
canonical_map. -/
theorem canonicalize_vrps_perm (l : List VRPEntry) :
    (canonicalize_vrps l).Perm ((dedupPairs l).map Prod.snd) :=
  List.perm_insertionSort sortRel _

/-- Recomputed dedup keys of the canonical sequence coincide with the
canonical_map keys, hence are pairwise distinct. -/
theorem canonicalize_vrps_keys_nodup (l : List VRPEntry) :
    ((canonicalize_vrps l).map canonKey).Nodup := by
  have hmap : ((dedupPairs l).map Prod.snd).map canonKey = (dedupPairs l).map Prod.fst := by
    rw [List.map_map]
    apply List.map_congr_left
    intro p hp
    obtain ⟨a, b⟩ := p
    obtain ⟨e, _, hv, hk⟩ := dedupPairs_pair_char l hp
    show canonKey b = a
    rw [hv, hk]
    rfl
  have hperm : ((canonicalize_vrps l).map canonKey).Perm
      (((dedupPairs l).map Prod.snd).map canonKey) :=
    (canonicalize_vrps_perm l).map canonKey
  rw [hmap] at hperm
  exact hperm.nodup_iff.mpr (dedupPairs_keys_nodup l)

/-- C9: the canonical sequence contains no two records with the same
deduplication key; each output record is the canonical dict of the FIRST
input record bearing its key (first-seen wins); and after an accepted
process_snapshot of the canonical sequence, get_current_state reports
vrp_count equal to the deduplicated sequence's length. -/
theorem C9_dedup_unique_first_seen_count (l : List VRPEntry) (s : EngineState)
    (metadata : UpstreamMeta) (now : String) :
    ((canonicalize_vrps l).map canonKey).Nodup ∧
    (∀ x ∈ canonicalize_vrps l,
      ∃ e, l.find? (fun e₀ => VRPEntry.canonicalize e₀ == canonKey x) = some e ∧
        x = canonDict e) ∧
    ((process_snapshot s (canonicalize_vrps l) metadata now).1 = true →
      (get_current_state
        (process_snapshot s (canonicalize_vrps l) metadata now).2).vrp_count =
        (canonicalize_vrps l).length) := by
  refine ⟨canonicalize_vrps_keys_nodup l, fun x hx => ?_, fun hacc => ?_⟩
  · have hx2 : x ∈ (dedupPairs l).map Prod.snd :=
      (canonicalize_vrps_perm l).mem_iff.mp hx
    obtain ⟨p, hp, hpx⟩ := List.mem_map.mp hx2
    obtain ⟨a, b⟩ := p
    cases hpx
    obtain ⟨e, he, hv, hk⟩ := dedupPairs_pair_char l hp
    have hkey : canonKey b = a := by rw [hv, hk]; rfl
    rw [hkey]
    exact ⟨e, he, hv⟩
  · unfold get_current_state
    rw [process_accepted_snapshot s (canonicalize_vrps l) metadata now hacc]

/-- Witness for C9: processing the canonicalization of a batch with a
duplicated record on the fresh engine reports the deduplicated count. -/
theorem C9_witness :
    (get_current_state
      (process_snapshot DiffEngine.init (canonicalize_vrps [entA, entA, entC])
        meta0 "t").2).vrp_count = (canonicalize_vrps [entA, entA, entC]).length := by
  apply (C9_dedup_unique_first_seen_count [entA, entA, entC] DiffEngine.init meta0 "t").2.2
  simp [process_snapshot, DiffEngine.init, compute_hash_ne_empty]

/-- Characters with equal code points are equal. -/
theorem char_toNat_inj {a b : Char} (h : a.toNat = b.toNat) : a = b := by
  have h3 : a.val.toNat = b.val.toNat := h
  rcases lt_trichotomy a b with h1 | h1 | h1
  · exfalso
    rw [Char.lt_iff_val_lt_val] at h1
    have h2 : a.val.toNat < b.val.toNat := h1
    omega
  · exact h1
  · exfalso
    rw [Char.lt_iff_val_lt_val] at h1
    have h2 : b.val.toNat < a.val.toNat := h1
    omega

/-- lexLT is irreflexive. -/
theorem lexLT_irrefl : ∀ a, lexLT a a = false := by
  intro a
  induction a with
  | nil => rfl
  | cons c cs ih =>
    unfold lexLT
    simp [ih]

/-- lexLT is transitive. -/
theorem lexLT_trans : ∀ a b c, lexLT a b = true → lexLT b c = true → lexLT a c = true := by
  intro a
  induction a with
  | nil =>
    intro b c h1 h2
    cases b with
    | nil => exact h2
    | cons b bs =>
      cases c with
      | nil => simp [lexLT] at h2
      | cons c cs => rfl
  | cons a as ih =>
    intro b c h1 h2
    cases b with
    | nil => simp [lexLT] at h1
    | cons b bs =>
      cases c with
      | nil => simp [lexLT] at h2
      | cons c cs =>
        unfold lexLT at h1 h2 ⊢
        by_cases hab : a.toNat < b.toNat
        · by_cases hbc : b.toNat < c.toNat
          · rw [if_pos (show a.toNat < c.toNat by omega)]
          · rw [if_neg hbc] at h2
            by_cases hcb : c.toNat < b.toNat
            · rw [if_pos hcb] at h2
              simp at h2
            · rw [if_pos (show a.toNat < c.toNat by omega)]
        · rw [if_neg hab] at h1
          by_cases hba : b.toNat < a.toNat
          · rw [if_pos hba] at h1
            simp at h1
          · rw [if_neg hba] at h1
            by_cases hbc : b.toNat < c.toNat
            · rw [if_pos (show a.toNat < c.toNat by omega)]
            · rw [if_neg hbc] at h2
              by_cases hcb : c.toNat < b.toNat
              · rw [if_pos hcb] at h2
                simp at h2
              · rw [if_neg hcb] at h2
                rw [if_neg (show ¬ a.toNat < c.toNat by omega),
                  if_neg (show ¬ c.toNat < a.toNat by omega)]
                exact ih bs cs h1 h2

/-- Mutually non-less lists are equal: lexLT is a linear strict order. -/
theorem lexLT_eq_of_not : ∀ a b, lexLT a b = false → lexLT b a = false → a = b := by
  intro a
  induction a with
  | nil =>
    intro b h1 _
    cases b with
    | nil => rfl
    | cons b bs => simp [lexLT] at h1
  | cons a as ih =>
    intro b h1 h2
    cases b with
    | nil => simp [lexLT] at h2
    | cons b bs =>
      unfold lexLT at h1 h2
      by_cases hab : a.toNat < b.toNat
      · rw [if_pos hab] at h1
        simp at h1
      · rw [if_neg hab] at h1
        by_cases hba : b.toNat < a.toNat
        · rw [if_pos hba] at h2
          simp at h2
        · rw [if_neg hba] at h1
          have hc : a = b := char_toNat_inj (by omega)
          rw [if_neg hba, if_neg hab] at h2
          rw [hc, ih bs h1 h2]

/-- A Bool that is not true is false. -/
theorem bool_eq_false {b : Bool} (h : ¬ b = true) : b = false := by
  cases b
  · rfl
  · exact absurd rfl h

/-- strLT is irreflexive. -/
theorem strLT_irrefl (s : String) : strLT s s = false := by
  unfold strLT
  exact lexLT_irrefl _

/-- The sort comparison as a lexicographic disjunction over the key
(prefix, asn, maxLength). -/
theorem sortLEb_iff (a b : CanonVRP) : sortLEb a b = true ↔
    (strLT a.pfx b.pfx = true ∨ (a.pfx = b.pfx ∧ (strLT a.asn b.asn = true ∨
      (a.asn = b.asn ∧ a.maxLength ≤ b.maxLength)))) := by
  unfold sortLEb
  by_cases hp1 : strLT a.pfx b.pfx = true
  · simp [hp1]
  · rw [if_neg hp1]
    by_cases hp2 : strLT b.pfx a.pfx = true
    · rw [if_pos hp2]
      have hne : ¬ a.pfx = b.pfx := by
        rintro heq
        rw [heq] at hp2
        unfold strLT at hp2
        rw [lexLT_irrefl] at hp2
        exact absurd hp2 (by simp)
      simp [hp1, hne]
    · rw [if_neg hp2]
      have hpeq : a.pfx = b.pfx := String.ext (lexLT_eq_of_not _ _
        (bool_eq_false hp1) (bool_eq_false hp2))
      by_cases ha1 : strLT a.asn b.asn = true
      · simp [hp1, hpeq, ha1]
      · rw [if_neg ha1]
        by_cases ha2 : strLT b.asn a.asn = true
        · rw [if_pos ha2]
          have hne : ¬ a.asn = b.asn := by
            rintro heq
            rw [heq] at ha2
            unfold strLT at ha2
            rw [lexLT_irrefl] at ha2
            exact absurd ha2 (by simp)
          simp [hp1, hpeq, ha1, hne, strLT_irrefl]
        · rw [if_neg ha2]
          have haeq : a.asn = b.asn := String.ext (lexLT_eq_of_not _ _
            (bool_eq_false ha1) (bool_eq_false ha2))
          simp [hp1, hpeq, ha1, haeq, strLT_irrefl]

/-- The sort comparison is total. -/
theorem sortLEb_total (a b : CanonVRP) : sortLEb a b = true ∨ sortLEb b a = true := by
  rw [sortLEb_iff, sortLEb_iff]
  by_cases hp1 : strLT a.pfx b.pfx = true
  · exact Or.inl (Or.inl hp1)
  · by_cases hp2 : strLT b.pfx a.pfx = true
    · exact Or.inr (Or.inl hp2)
    · have hpeq : a.pfx = b.pfx := String.ext (lexLT_eq_of_not _ _
        (bool_eq_false hp1) (bool_eq_false hp2))
      by_cases ha1 : strLT a.asn b.asn = true
      · exact Or.inl (Or.inr ⟨hpeq, Or.inl ha1⟩)
      · by_cases ha2 : strLT b.asn a.asn = true
        · exact Or.inr (Or.inr ⟨hpeq.symm, Or.inl ha2⟩)
        · have haeq : a.asn = b.asn := String.ext (lexLT_eq_of_not _ _
            (bool_eq_false ha1) (bool_eq_false ha2))
          rcases Int.le_total a.maxLength b.maxLength with h | h
          · exact Or.inl (Or.inr ⟨hpeq, Or.inr ⟨haeq, h⟩⟩)
          · exact Or.inr (Or.inr ⟨hpeq.symm, Or.inr ⟨haeq.symm, h⟩⟩)

/-- The sort comparison is transitive. -/
theorem sortLEb_trans (a b c : CanonVRP) (h1 : sortLEb a b = true)
    (h2 : sortLEb b c = true) : sortLEb a c = true := by
  rw [sortLEb_iff] at h1 h2 ⊢
  rcases h1 with hp1 | ⟨hpe1, hr1⟩
  · rcases h2 with hp2 | ⟨hpe2, hr2⟩
    · exact Or.inl (lexLT_trans _ _ _ hp1 hp2)
    · rw [hpe2] at hp1
      exact Or.inl hp1
  · rcases h2 with hp2 | ⟨hpe2, hr2⟩
    · rw [← hpe1] at hp2
      exact Or.inl hp2
    · refine Or.inr ⟨hpe1.trans hpe2, ?_⟩
      rcases hr1 with ha1 | ⟨hae1, hm1⟩
      · rcases hr2 with ha2 | ⟨hae2, hm2⟩
        · exact Or.inl (lexLT_trans _ _ _ ha1 ha2)
        · rw [hae2] at ha1
          exact Or.inl ha1
      · rcases hr2 with ha2 | ⟨hae2, hm2⟩
        · rw [← hae1] at ha2
          exact Or.inl ha2
        · exact Or.inr ⟨hae1.trans hae2, le_trans hm1 hm2⟩

/-- Mutually comparable records agree on the whole sort key. -/
theorem sortLEb_antisymm (a b : CanonVRP) (h1 : sortLEb a b = true)
    (h2 : sortLEb b a = true) :
    a.pfx = b.pfx ∧ a.asn = b.asn ∧ a.maxLength = b.maxLength := by
  have hasym : ∀ s t : String, strLT s t = true → strLT t s = true → False := by
    intro s t hst hts
    have hx := lexLT_trans _ _ _ hst hts
    rw [lexLT_irrefl] at hx
    exact absurd hx (by simp)
  rw [sortLEb_iff] at h1 h2
  rcases h1 with hp1 | ⟨hpe1, hr1⟩
  · rcases h2 with hp2 | ⟨hpe2, hr2⟩
    · exact (hasym _ _ hp1 hp2).elim
    · rw [hpe2] at hp1
      unfold strLT at hp1
      rw [lexLT_irrefl] at hp1
      exact absurd hp1 (by simp)
  · rcases h2 with hp2 | ⟨hpe2, hr2⟩
    · rw [hpe1] at hp2
      unfold strLT at hp2
      rw [lexLT_irrefl] at hp2
      exact absurd hp2 (by simp)
    · refine ⟨hpe1, ?_⟩
      rcases hr1 with ha1 | ⟨hae1, hm1⟩
      · rcases hr2 with ha2 | ⟨hae2, hm2⟩
        · exact (hasym _ _ ha1 ha2).elim
        · rw [hae2] at ha1
          unfold strLT at ha1
          rw [lexLT_irrefl] at ha1
          exact absurd ha1 (by simp)
      · rcases hr2 with ha2 | ⟨hae2, hm2⟩
        · rw [hae1] at ha2
          unfold strLT at ha2
          rw [lexLT_irrefl] at ha2
          exact absurd ha2 (by simp)
        · exact ⟨hae1, le_antisymm hm1 hm2⟩

/-- Two sorted permutations of each other are equal when the order is
antisymmetric on their members. -/
theorem sorted_eq_of_perm_of_antisymm {α : Type} {r : α → α → Prop} :
    ∀ (l₁ l₂ : List α), l₁.Perm l₂ → List.Sorted r l₁ → List.Sorted r l₂ →
    (∀ x ∈ l₁, ∀ y ∈ l₁, r x y → r y x → x = y) → l₁ = l₂ := by
  intro l₁
  induction l₁ with
  | nil =>
    intro l₂ hp _ _ _
    exact (hp.symm.eq_nil).symm
  | cons x t₁ ih =>
    intro l₂ hp hs₁ hs₂ hanti
    cases l₂ with
    | nil =>
      have := hp.eq_nil
      simp at this
    | cons y t₂ =>
      have hxy : x = y := by
        have hx2 : x ∈ y :: t₂ := hp.mem_iff.mp (List.mem_cons_self x t₁)
        rcases List.mem_cons.mp hx2 with h | h
        · exact h
        · have hy1 : y ∈ x :: t₁ := hp.symm.mem_iff.mp (List.mem_cons_self y t₂)
          rcases List.mem_cons.mp hy1 with h' | h'
          · exact h'.symm
          · have hrxy : r x y := (List.sorted_cons.mp hs₁).1 y h'
            have hryx : r y x := (List.sorted_cons.mp hs₂).1 x h
            exact hanti x (List.mem_cons_self x t₁) y (List.mem_cons_of_mem _ h') hrxy hryx
      subst hxy
      have ht : t₁ = t₂ :=
        ih t₂ hp.cons_inv (List.sorted_cons.mp hs₁).2 (List.sorted_cons.mp hs₂).2
          (fun u hu v hv => hanti u (List.mem_cons_of_mem _ hu) v (List.mem_cons_of_mem _ hv))
      rw [ht]

/-- Membership in the canonical sequence of a batch of valid records: exactly
the canonical dicts of the batch records. -/
theorem mem_canonicalize_vrps {l : List VRPEntry} (hval : ∀ e ∈ l, validEntry e = true)
    (x : CanonVRP) : x ∈ canonicalize_vrps l ↔ ∃ e ∈ l, x = canonDict e := by
  rw [(canonicalize_vrps_perm l).mem_iff]
  constructor
  · intro hx
    obtain ⟨p, hp, hpx⟩ := List.mem_map.mp hx
    obtain ⟨a, b⟩ := p
    cases hpx
    obtain ⟨e, he, hv, _⟩ := dedupPairs_pair_char l hp
    exact ⟨e, List.mem_of_find?_eq_some he, hv⟩
  · rintro ⟨e, hel, rfl⟩
    have hsome : (l.find? (fun e₁ => VRPEntry.canonicalize e₁ ==
        VRPEntry.canonicalize e)).isSome := by
      rw [List.find?_isSome]
      exact ⟨e, hel, by simp⟩
    obtain ⟨e₀, he₀⟩ := Option.isSome_iff_exists.mp hsome
    have hkey : VRPEntry.canonicalize e₀ = VRPEntry.canonicalize e := by
      have hk := List.find?_some he₀
      simpa using hk
    have hmem : (VRPEntry.canonicalize e, canonDict e₀) ∈ dedupPairs l := by
      apply lookup_some_mem
      rw [dedupPairs_lookup, he₀]
      rfl
    have hcd : canonDict e₀ = canonDict e :=
      canonDict_eq_of_key_eq (hval e₀ (List.mem_of_find?_eq_some he₀)) (hval e hel) hkey
    exact List.mem_map.mpr ⟨(VRPEntry.canonicalize e, canonDict e₀), hmem, by simp [hcd]⟩

/-- C4 counterexample: the claim demands identical ordered output for every
permutation of a valid record set, but two valid records differing only in
trust anchor tie on the sort key (prefix, asn, maxLength); the stable sort
keeps them in first-seen order, so the two input orders give two different
output sequences. -/
theorem C4_counterexample :
    List.Perm [entA, entB] [entB, entA] ∧
    validEntry entA = true ∧ validEntry entB = true ∧
    canonicalize_vrps [entA, entB] ≠ canonicalize_vrps [entB, entA] := by decide

/-- C4 amended: canonicalization is permutation-invariant (identical output
sequence, byte-identical serialization, identical hash) for every valid
record set in which records agreeing on (normalized prefix, ASN, maxLength)
also agree on the trust anchor — the sort key determines the record.  The
counterexample shows the restriction is necessary: records differing only
in trust anchor tie on the sort key and keep their input order. -/
theorem C4_canonicalization_order_invariant (l₁ l₂ : List VRPEntry)
    (hperm : l₁.Perm l₂)
    (hval : ∀ e ∈ l₁, validEntry e = true)
    (hta : ∀ e ∈ l₁, ∀ e₂ ∈ l₁, (canonDict e).pfx = (canonDict e₂).pfx →
      (canonDict e).asn = (canonDict e₂).asn →
      (canonDict e).maxLength = (canonDict e₂).maxLength →
      canonDict e = canonDict e₂) :
    canonicalize_vrps l₁ = canonicalize_vrps l₂ ∧
    jsonDumps (canonicalize_vrps l₁) = jsonDumps (canonicalize_vrps l₂) ∧
    compute_hash (canonicalize_vrps l₁) = compute_hash (canonicalize_vrps l₂) := by
  have hval₂ : ∀ e ∈ l₂, validEntry e = true := fun e he => hval e (hperm.mem_iff.mpr he)
  have hmem : ∀ x, x ∈ canonicalize_vrps l₁ ↔ x ∈ canonicalize_vrps l₂ := by
    intro x
    rw [mem_canonicalize_vrps hval x, mem_canonicalize_vrps hval₂ x]
    constructor
    · rintro ⟨e, he, rfl⟩
      exact ⟨e, hperm.mem_iff.mp he, rfl⟩
    · rintro ⟨e, he, rfl⟩
      exact ⟨e, hperm.mem_iff.mpr he, rfl⟩
  have hnd₁ : (canonicalize_vrps l₁).Nodup :=
    List.Nodup.of_map canonKey (canonicalize_vrps_keys_nodup l₁)
  have hnd₂ : (canonicalize_vrps l₂).Nodup :=
    List.Nodup.of_map canonKey (canonicalize_vrps_keys_nodup l₂)
  have hpermc : (canonicalize_vrps l₁).Perm (canonicalize_vrps l₂) :=
    (List.perm_ext_iff_of_nodup hnd₁ hnd₂).mpr hmem
  have hs₁ : List.Sorted sortRel (canonicalize_vrps l₁) :=
    @List.sorted_insertionSort CanonVRP sortRel _ ⟨sortLEb_total⟩ ⟨sortLEb_trans⟩ _
  have hs₂ : List.Sorted sortRel (canonicalize_vrps l₂) :=
    @List.sorted_insertionSort CanonVRP sortRel _ ⟨sortLEb_total⟩ ⟨sortLEb_trans⟩ _
  have hanti : ∀ x ∈ canonicalize_vrps l₁, ∀ y ∈ canonicalize_vrps l₁,
      sortRel x y → sortRel y x → x = y := by
    intro x hx y hy hxy hyx
    obtain ⟨e, he, rfl⟩ := (mem_canonicalize_vrps hval x).mp hx
    obtain ⟨e₂, he₂, rfl⟩ := (mem_canonicalize_vrps hval y).mp hy
    obtain ⟨hp, ha, hm⟩ := sortLEb_antisymm _ _ hxy hyx
    exact hta e he e₂ he₂ hp ha hm
  have hmain : canonicalize_vrps l₁ = canonicalize_vrps l₂ :=
    sorted_eq_of_perm_of_antisymm _ _ hpermc hs₁ hs₂ hanti
  exact ⟨hmain, by rw [hmain], by rw [hmain]⟩

/-- Witness for C4 amended: two valid records with distinct sort keys
canonicalize identically from both input orders. -/
theorem C4_witness : canonicalize_vrps [entA, entC] = canonicalize_vrps [entC, entA] :=
  (C4_canonicalization_order_invariant [entA, entC] [entC, entA]
    (by decide) (by decide) (by decide)).1
